import Mathlib

/-!
Verification development for the LiquidChat message feed synchronizer
(`ChatWindow` component and its paginated revision), checked against the
repository's natural-language specification.

The embedding models:
* the `messages` table rows (schema from the initial migration: `id` is a
  primary key, `created_at` defaults to the server clock, `is_deleted`
  defaults to `false`);
* the `fetchMessages` query pipeline of the paginated `ChatWindow`
  (filter by conversation and `is_deleted = false`, order by `created_at`
  descending, limit 50, optional `created_at < oldest` bound), its
  profile enrichment and its state update;
* the realtime INSERT/DELETE handlers installed by `subscribeToMessages`;
* `handleSendMessage` (guard, upload, insert payload);
* the subscription lifecycle (`useEffect` cleanup, `subscribeToMessages`
  pre-cleanup, `CHANNEL_ERROR` cleanup);
* a small system model (database + server clock + client state) whose
  events are sends, hard deletes, initial fetches and pagination fetches,
  used to state trace invariants.

Timestamps and identifiers are modelled as `Nat`; text payloads keep the
`string | null` shape as `Option String`.
-/

namespace LiquidChat

/-- A row of the `profiles` table as selected by the component
(`id, username, display_name, avatar_url`). `display_name` and
`avatar_url` are nullable. -/
structure ProfileRow where
  id : Nat
  username : String
  display_name : Option String
  avatar_url : Option String
deriving DecidableEq, Repr

/-- The denormalized `sender_profile` object the component attaches to each
displayed message. -/
structure SenderProfile where
  username : String
  display_name : String
  avatar_url : Option String
deriving DecidableEq, Repr

/-- The `message_type` enum of the schema. -/
inductive MessageType where
  | text
  | image
  | emoji
deriving DecidableEq, Repr

/-- A row of the `messages` table (the columns relevant to the
synchronizer). -/
structure DbRow where
  id : Nat
  conversation_id : Nat
  sender_id : Nat
  content : Option String
  image_url : Option String
  message_type : MessageType
  is_deleted : Bool
  created_at : Nat
deriving DecidableEq, Repr

/-- The `Message` interface of `ChatWindow`: a fetched row plus its
resolved sender profile. -/
structure Message where
  id : Nat
  content : Option String
  image_url : Option String
  created_at : Nat
  sender_id : Nat
  sender_profile : SenderProfile
deriving DecidableEq, Repr

/-! ### The messages query

`supabase.from("messages").select(...).eq("conversation_id", cid)
.eq("is_deleted", false).order("created_at", { ascending: false })
.limit(50)`, optionally with `.lt("created_at", before)`.

The `ORDER BY created_at DESC` step is embedded as an insertion sort with
the descending comparison. -/

/-- The row filter of the query: same conversation, not soft-deleted. -/
def visibleIn (cid : Nat) (r : DbRow) : Bool :=
  r.conversation_id == cid && r.is_deleted == false

/-- Insert a row into a list kept in descending `created_at` order. -/
def insertDesc (r : DbRow) : List DbRow → List DbRow
  | [] => [r]
  | x :: xs => if x.created_at < r.created_at then r :: x :: xs else x :: insertDesc r xs

/-- Sort rows by `created_at` descending (the query's `ORDER BY ... DESC`). -/
def sortDesc : List DbRow → List DbRow
  | [] => []
  | r :: rs => insertDesc r (sortDesc rs)

/-- Sort rows by `created_at` ascending (the legacy query's
`ORDER BY ... ASC`): the reversal of the descending order. -/
def sortAsc (l : List DbRow) : List DbRow :=
  (sortDesc l).reverse

/-- The combined row predicate of the paginated query: the two `.eq`
filters plus the optional `.lt("created_at", before)` bound. -/
def queryPred (cid : Nat) (before : Option Nat) (r : DbRow) : Bool :=
  visibleIn cid r &&
    (match before with
     | some t => decide (r.created_at < t)
     | none => true)

/-- The paginated messages query: filter by conversation and soft-delete
flag, optionally bound `created_at` strictly below `before`, order
descending, limit 50 (the page size). -/
def messagesQuery (db : List DbRow) (cid : Nat) (before : Option Nat) : List DbRow :=
  (sortDesc (db.filter (queryPred cid before))).take 50

/-! ### Profile resolution -/

/-- JS `[...new Set(xs)]`: deduplicate keeping first occurrences. -/
def jsSetDedup (l : List Nat) : List Nat :=
  l.foldl (fun acc x => if acc.contains x then acc else acc ++ [x]) []

/-- `supabase.from("profiles").select(...).in("id", ids)`. -/
def profilesQuery (profilesDb : List ProfileRow) (ids : List Nat) : List ProfileRow :=
  profilesDb.filter fun p => ids.contains p.id

/-- Build-then-get of the JS `Map`: `rows.forEach(p => map.set(p.id, p))`
followed by `map.get(sid)` — the last row with a matching id wins. -/
def profilesMapGet (rows : List ProfileRow) (sid : Nat) : Option ProfileRow :=
  rows.foldl (fun acc p => if p.id == sid then some p else acc) none

/-- `supabase.from("profiles").select(...).eq("id", sid).single()`:
succeeds only when exactly one row matches; on error the handler
proceeds with `profileData = null`. -/
def singleProfileQuery (profilesDb : List ProfileRow) (sid : Nat) : Option ProfileRow :=
  match profilesDb.filter (fun p => p.id == sid) with
  | [p] => some p
  | _ => none

/-- JS `profile.display_name || profile.username`: `null` and the empty
string both fall back to the username. -/
def displayNameOr (dn : Option String) (un : String) : String :=
  match dn with
  | some s => if s = "" then un else s
  | none => un

/-- The `sender_profile` ternary of the component: a found profile is
projected, a missing one becomes the "Unknown User" placeholder. -/
def senderProfileOf : Option ProfileRow → SenderProfile
  | some p => ⟨p.username, displayNameOr p.display_name p.username, p.avatar_url⟩
  | none => ⟨"Unknown User", "Unknown User", none⟩

/-- Map one fetched row to a displayed `Message` using a profile lookup. -/
def toMessage (pm : Nat → Option ProfileRow) (r : DbRow) : Message :=
  { id := r.id
    content := r.content
    image_url := r.image_url
    created_at := r.created_at
    sender_id := r.sender_id
    sender_profile := senderProfileOf (pm r.sender_id) }

/-- The batched profile rows fetched for one page: the distinct sender
ids of the page (`[...new Set(...)]`) feed one `.in` query, skipped when
the set is empty (leaving the map empty). -/
def pageProfiles (profilesDb : List ProfileRow) (rows : List DbRow) : List ProfileRow :=
  let senderIds := jsSetDedup (rows.map (·.sender_id))
  if senderIds.length > 0 then profilesQuery profilesDb senderIds else []

/-- The `transformedMessages` computation of the paginated `fetchMessages`:
`.reverse().map(...)` the page into `Message`s, resolving each sender
through the batched profile map. -/
def transformMessages (profilesDb : List ProfileRow) (rows : List DbRow) : List Message :=
  rows.reverse.map (toMessage (profilesMapGet (pageProfiles profilesDb rows)))

/-! ### Client state and `fetchMessages` (paginated revision) -/

/-- The component state the synchronizer maintains: the visible message
sequence and the "more available" flag. -/
structure ChatState where
  messages : List Message
  hasMore : Bool
deriving DecidableEq, Repr

/-- `fetchMessages(beforeId, append)` of the paginated `ChatWindow`,
success path: the `lt("created_at", messages[0].created_at)` bound is
applied only when `beforeId` is given and the current sequence is
non-empty; the transformed page either replaces the sequence or is
prepended to it; `hasMore` becomes `fetchedCount === 50`. -/
def fetchMessages (db : List DbRow) (profilesDb : List ProfileRow) (cid : Nat)
    (beforeId : Option Nat) (append : Bool) (st : ChatState) : ChatState :=
  let before : Option Nat :=
    match beforeId, st.messages with
    | some _, m0 :: _ => some m0.created_at
    | _, _ => none
  let rows := messagesQuery db cid before
  let transformed := transformMessages profilesDb rows
  { messages := if append then transformed ++ st.messages else transformed
    hasMore := rows.length == 50 }

/-! ### Realtime handlers (`subscribeToMessages`) -/

/-- The INSERT handler: resolve the sender profile by a single-row query,
then append the new message unless a message with the same identifier is
already present (the dedupe check). -/
def handleInsert (profilesDb : List ProfileRow) (payload : DbRow)
    (prev : List Message) : List Message :=
  let newMessage := toMessage (singleProfileQuery profilesDb) payload
  if prev.any (fun m => m.id == newMessage.id) then prev else prev ++ [newMessage]

/-- The DELETE handler: drop the message whose identifier matches
`payload.old.id`; absent identifiers are a no-op. -/
def handleDelete (i : Nat) (prev : List Message) : List Message :=
  prev.filter fun m => !(m.id == i)

/-! ### System model: database, server clock, client

The backing store assigns `id` (primary key, fresh) and `created_at`
(`DEFAULT now()`, modelled as a strictly increasing server clock) on
insert. Events are processed one at a time on the UI event loop, per the
specification's single-threaded concurrency model. -/

/-- Whole-system state: the `messages` table, the server clock used for
`created_at`, and the client's synchronizer state. -/
structure SysState where
  db : List DbRow
  clock : Nat
  chat : ChatState
deriving DecidableEq, Repr

/-- Events of the synchronizer model, for a fixed active conversation:
a message insert (by any participant; delivered to the INSERT handler when
the conversation matches), a hard delete (delivered to the DELETE
handler), an initial fetch, and a pagination fetch. Fetch events carry the
`profiles` table contents seen by their profile lookups. -/
inductive SysEvent where
  | sendMsg (id sender cid : Nat) (content image_url : Option String)
      (profilesDb : List ProfileRow)
  | deleteMsg (i : Nat)
  | initialFetch (profilesDb : List ProfileRow)
  | loadMore (profilesDb : List ProfileRow)
deriving DecidableEq, Repr

/-- The row the database stores for a send: `message_type` mirrors the
component's payload-shape derivation, `created_at` is the server clock. -/
def rowOfSend (clock : Nat) (id sender cid : Nat)
    (content image_url : Option String) : DbRow :=
  { id := id
    conversation_id := cid
    sender_id := sender
    content := content
    image_url := image_url
    message_type := if image_url.isSome then .image else .text
    is_deleted := false
    created_at := clock }

/-- One step of the system. `cid` is the active conversation. An insert
appends the row and (when the conversation matches the subscription
filter) runs the INSERT handler; a delete removes the row and (when a row
of the active conversation matched) runs the DELETE handler; the fetch
events run `fetchMessages` exactly as the component calls it: the initial
load as `fetchMessages()` and the Load More button as
`fetchMessages(messages[0]?.id, true)`. -/
def stepSys (cid : Nat) (s : SysState) : SysEvent → SysState
  | .sendMsg mid sender cid' content image profilesDb =>
    let r := rowOfSend s.clock mid sender cid' content image
    { db := s.db ++ [r]
      clock := s.clock + 1
      chat :=
        if cid' == cid then
          { s.chat with messages := handleInsert profilesDb r s.chat.messages }
        else s.chat }
  | .deleteMsg i =>
    { db := s.db.filter fun r => !(r.id == i)
      clock := s.clock
      chat :=
        if s.db.any (fun r => r.id == i && r.conversation_id == cid) then
          { s.chat with messages := handleDelete i s.chat.messages }
        else s.chat }
  | .initialFetch profilesDb =>
    { s with chat := fetchMessages s.db profilesDb cid none false s.chat }
  | .loadMore profilesDb =>
    { s with
      chat :=
        fetchMessages s.db profilesDb cid (s.chat.messages.head?.map (·.id)) true
          s.chat }

/-- Platform-side well-formedness of an event in a state: an insert must
use a fresh primary key (the database enforces this); the other events
are unconstrained. -/
def evOK (s : SysState) : SysEvent → Bool
  | .sendMsg mid _ _ _ _ _ => s.db.all fun r => !(r.id == mid)
  | _ => true

/-- The initial system state: empty table, clock 0, empty sequence, the
component's `useState(true)` for `hasMore`. -/
def initSys : SysState :=
  { db := [], clock := 0, chat := { messages := [], hasMore := true } }

/-- Reachability of a system state by a sequence of well-formed events. -/
inductive Reach (cid : Nat) : SysState → Prop
  | init : Reach cid initSys
  | step {s : SysState} {e : SysEvent} : Reach cid s → evOK s e = true →
      Reach cid (stepSys cid s e)

/-! ### `handleSendMessage`

Both `ChatWindow` variants share the same guard and `messageData`
construction. The upload outcome is a parameter (the component awaits
`uploadImage`, which yields a public URL or `null`). Effects — storage
uploads, `messages` inserts, toasts — are recorded explicitly so that
"no network call" is a statement of the model. -/

/-- JS `String.prototype.trim()`: strip leading and trailing whitespace.
(Embedded as a structurally recursive function on the character list, with
the same observable behavior as the runtime `trim`.) -/
def jsTrim (s : String) : String :=
  String.mk (((s.data.dropWhile Char.isWhitespace).reverse.dropWhile
    Char.isWhitespace).reverse)

/-- A toast notice (`title`/`description` of the `toast(...)` calls). -/
structure ToastMsg where
  title : String
  description : String
deriving DecidableEq, Repr

/-- The `messageData` payload inserted into the `messages` table. -/
structure InsertPayload where
  conversation_id : Nat
  sender_id : Nat
  content : Option String
  image_url : Option String
  message_type : MessageType
deriving DecidableEq, Repr

/-- The component state touched by `handleSendMessage`. -/
structure SendState where
  messages : List Message
  newMessage : String
  selectedImage : Option String
deriving DecidableEq, Repr

/-- The observable outcome of one `handleSendMessage` call. -/
structure SendRun where
  state : SendState
  uploadCalls : Nat
  insertCalls : List InsertPayload
  toasts : List ToastMsg
deriving DecidableEq, Repr

/-- `handleSendMessage`: the guard rejects when the conversation or user
is missing or when the trimmed text is empty and no image is selected
(JS `!newMessage.trim() && !selectedImage`), before any network call.
Otherwise a selected image is uploaded first (a failed upload toasts and
aborts), then `messageData` is inserted with `content` as the trimmed
text or `null` and `message_type` image when an upload URL is present,
text otherwise; on success the input fields are cleared. The visible
message sequence is never written. -/
def handleSendMessage (conversationId currentUser : Option Nat)
    (uploadResult : Option String) (st : SendState) : SendRun :=
  match conversationId, currentUser with
  | some cid, some uid =>
    if jsTrim st.newMessage = "" && st.selectedImage.isNone then
      { state := st, uploadCalls := 0, insertCalls := [], toasts := [] }
    else
      match st.selectedImage with
      | some _ =>
        match uploadResult with
        | none =>
          { state := st, uploadCalls := 1, insertCalls := []
            toasts := [⟨"Error", "Failed to upload image"⟩] }
        | some url =>
          { state := { st with newMessage := "", selectedImage := none }
            uploadCalls := 1
            insertCalls := [⟨cid, uid,
              (if jsTrim st.newMessage = "" then none else some (jsTrim st.newMessage)),
              some url, .image⟩]
            toasts := [] }
      | none =>
        { state := { st with newMessage := "", selectedImage := none }
          uploadCalls := 0
          insertCalls := [⟨cid, uid,
            (if jsTrim st.newMessage = "" then none else some (jsTrim st.newMessage)),
            none, .text⟩]
          toasts := [] }
  | _, _ => { state := st, uploadCalls := 0, insertCalls := [], toasts := [] }

/-! ### Subscription lifecycle

`channelRef` holds the one channel the component owns; the `useEffect`
body removes it before fetching/resubscribing, `subscribeToMessages`
removes it again defensively before creating the new channel, and both
the effect cleanup and the `CHANNEL_ERROR` callback remove it. Channels
registered with the platform client are modelled as a list of channel
identifiers. -/

/-- Subscription-lifecycle state: the platform client's live channels,
the component's `channelRef`, and a counter generating fresh channel
names (`messages_<cid>_<Date.now()>`). -/
structure SubState where
  liveChannels : List Nat
  channelRef : Option Nat
  nextId : Nat
deriving DecidableEq, Repr

/-- `supabase.removeChannel(channelRef.current); channelRef.current = null`
— the cleanup block shared by the effect body, the effect cleanup,
`subscribeToMessages` and the `CHANNEL_ERROR` handler. -/
def cleanupRef (s : SubState) : SubState :=
  match s.channelRef with
  | some c =>
    { s with liveChannels := s.liveChannels.filter (fun x => !(x == c))
             channelRef := none }
  | none => s

/-- `subscribeToMessages`: bail out without a conversation/user, remove
any existing channel, then create and register the new channel and store
it in `channelRef`. -/
def subscribeToMessages (hasConvAndUser : Bool) (s : SubState) : SubState :=
  if !hasConvAndUser then s
  else
    let s1 := cleanupRef s
    { liveChannels := s1.liveChannels ++ [s1.nextId]
      channelRef := some s1.nextId
      nextId := s1.nextId + 1 }

/-- Lifecycle events: the `useEffect` body running on a
conversation/user change (its argument tells whether both are present),
the effect/unmount cleanup, and the `CHANNEL_ERROR` callback. -/
inductive SubEvent where
  | effectRun (hasConvAndUser : Bool)
  | cleanup
  | channelError
deriving DecidableEq, Repr

/-- One lifecycle step. The effect body first removes the existing
subscription, then (when a conversation and user are present) calls
`subscribeToMessages`. -/
def stepSub (s : SubState) : SubEvent → SubState
  | .effectRun b =>
    let s1 := cleanupRef s
    if b then subscribeToMessages b s1 else s1
  | .cleanup => cleanupRef s
  | .channelError => cleanupRef s

/-- Initial lifecycle state: no channels, empty ref. -/
def initSub : SubState := { liveChannels := [], channelRef := none, nextId := 0 }

/-- Lifecycle states reachable from the initial state. -/
inductive ReachSub : SubState → Prop
  | init : ReachSub initSub
  | step {s : SubState} (e : SubEvent) : ReachSub s → ReachSub (stepSub s e)

/-! ### Fetch failure paths

The paginated `fetchMessages` handles a query error with a bare
`if (messagesError) return;` — no toast. The legacy (non-paginated)
`ChatWindow.tsx` distinguishes a row-level-security rejection from other
errors and toasts accordingly. Both leave the message sequence untouched
and issue exactly one messages query with no retry. -/

/-- Outcome of one paginated `fetchMessages` call, with its effects. -/
structure FetchRun where
  state : ChatState
  toasts : List ToastMsg
  messageQueries : Nat
deriving DecidableEq, Repr

/-- The paginated `fetchMessages` including its error branch: on a query
error the function returns at once (state untouched, no toast); on
success it behaves as `fetchMessages`. One messages query is issued
either way and no retry happens. -/
def fetchMessagesRun (queryError : Bool) (db : List DbRow)
    (profilesDb : List ProfileRow) (cid : Nat) (beforeId : Option Nat)
    (append : Bool) (st : ChatState) : FetchRun :=
  if queryError then { state := st, toasts := [], messageQueries := 1 }
  else
    { state := fetchMessages db profilesDb cid beforeId append st
      toasts := [], messageQueries := 1 }

/-- The legacy `fetchMessages` of `ChatWindow.tsx`, success path: all
non-deleted rows of the conversation ordered ascending (no limit, no
reverse); when no sender ids occur the sequence is set to `[]`. -/
def fetchMessagesLegacy (db : List DbRow) (profilesDb : List ProfileRow)
    (cid : Nat) : List Message :=
  let rows := sortAsc (db.filter (visibleIn cid))
  let senderIds := jsSetDedup (rows.map (·.sender_id))
  if senderIds.length > 0 then
    rows.map (toMessage (profilesMapGet (profilesQuery profilesDb senderIds)))
  else []

/-- The legacy fetch including its error branch: a row-level-security
error toasts "Access Denied", any other error toasts a generic failure;
both return with the sequence untouched. `queryError = none` is success.
One messages query is issued either way. -/
def fetchMessagesLegacyRun (queryError : Option Bool) (db : List DbRow)
    (profilesDb : List ProfileRow) (cid : Nat) (msgs : List Message) :
    List Message × List ToastMsg × Nat :=
  match queryError with
  | some rls =>
    (msgs,
     [if rls then ⟨"Access Denied", "You don't have access to this conversation"⟩
      else ⟨"Error", "Failed to load messages. Please try again."⟩], 1)
  | none => (fetchMessagesLegacy db profilesDb cid, [], 1)

/-! ### Conversation switching and in-flight fetches

`fetchMessages` captures `conversationId` in its closure and, after its
awaits, writes `setMessages(...)` without re-checking the active
conversation. The model keeps the currently selected conversation, the
visible sequence, and the list of in-flight fetches, each recorded with
the conversation it was issued for and the result it will deliver
(computed from the store by the query it issued). Selecting a
conversation issues its initial fetch; a completion event applies any
in-flight result — exactly as the code does, with no tag check. -/

/-- Window state for the switching model. -/
structure WinState where
  active : Option Nat
  messages : List Message
  pending : List (Nat × List Message)
deriving DecidableEq, Repr

/-- Switching events: selecting a conversation (the effect issues the
initial fetch for it) and the completion of the `k`-th in-flight fetch. -/
inductive WinEvent where
  | selectConv (cid : Nat)
  | fetchComplete (k : Nat)
deriving DecidableEq, Repr

/-- One step of the switching model over a fixed store. On completion the
pending result is applied to `messages` unconditionally, because the code
performs no conversation-tag check after its awaits. -/
def stepWin (db : List DbRow) (profilesDb : List ProfileRow) (s : WinState) :
    WinEvent → WinState
  | .selectConv cid =>
    { active := some cid
      messages := s.messages
      pending := s.pending ++
        [(cid, (fetchMessages db profilesDb cid none false
                  { messages := s.messages, hasMore := true }).messages)] }
  | .fetchComplete k =>
    match s.pending[k]? with
    | some (_, res) =>
      { s with messages := res, pending := s.pending.eraseIdx k }
    | none => s

/-- Run the switching model from an unselected window. -/
def runWin (db : List DbRow) (profilesDb : List ProfileRow)
    (evs : List WinEvent) : WinState :=
  evs.foldl (stepWin db profilesDb) { active := none, messages := [], pending := [] }

/-! ### Invariants -/

/-- Rows/messages in strictly ascending `created_at` order. -/
def ordAsc {α : Type} (ts : α → Nat) (l : List α) : Prop :=
  l.Pairwise fun a b => ts a < ts b

/-- Pairwise-distinct keys. -/
def uniqKey {α β : Type} (key : α → β) (l : List α) : Prop :=
  l.Pairwise fun a b => key a ≠ key b

/-- Every visible message is backed by a row of the active conversation
in the table, with the same identifier and timestamp. -/
def backed (cid : Nat) (s : SysState) : Prop :=
  ∀ m ∈ s.chat.messages, ∃ r ∈ s.db,
    r.id = m.id ∧ r.created_at = m.created_at ∧ r.conversation_id = cid

/-- The system invariant: the table is in insertion order with strictly
increasing timestamps below the clock and unique primary keys; the
visible sequence is backed by the table, strictly ascending by
`created_at`, and unique by identifier. -/
def sysInv (cid : Nat) (s : SysState) : Prop :=
  ordAsc DbRow.created_at s.db ∧ uniqKey DbRow.id s.db ∧
    (∀ r ∈ s.db, r.created_at < s.clock) ∧ backed cid s ∧
    ordAsc Message.created_at s.chat.messages ∧
    uniqKey Message.id s.chat.messages

/-! ### Generic list lemmas -/

theorem pairwise_key_inj {α β : Type} (key : α → β) {l : List α}
    (h : l.Pairwise fun a b => key a ≠ key b) :
    ∀ a ∈ l, ∀ b ∈ l, key a = key b → a = b := by
  induction l with
  | nil => intro a ha; cases ha
  | cons x xs ih =>
    rcases List.pairwise_cons.mp h with ⟨hx, hxs⟩
    intro a ha b hb hab
    rcases List.mem_cons.mp ha with ha1 | ha2
    · rcases List.mem_cons.mp hb with hb1 | hb2
      · rw [ha1, hb1]
      · subst ha1
        exact absurd hab (hx _ hb2)
    · rcases List.mem_cons.mp hb with hb1 | hb2
      · subst hb1
        exact absurd hab.symm (hx _ ha2)
      · exact ih hxs a ha2 b hb2 hab

/-! ### Sorting lemmas -/

theorem insertDesc_perm (r : DbRow) (l : List DbRow) :
    (insertDesc r l).Perm (r :: l) := by
  induction l with
  | nil => simp [insertDesc]
  | cons x xs ih =>
    by_cases h : x.created_at < r.created_at
    · simp [insertDesc, h]
    · simpa [insertDesc, h] using ((ih.cons x).trans (List.Perm.swap r x xs))

theorem sortDesc_perm (l : List DbRow) : (sortDesc l).Perm l := by
  induction l with
  | nil => simp [sortDesc]
  | cons r rs ih => exact (insertDesc_perm r (sortDesc rs)).trans (ih.cons r)

theorem mem_insertDesc {x r : DbRow} {l : List DbRow} :
    x ∈ insertDesc r l ↔ x = r ∨ x ∈ l := by
  constructor
  · intro h
    simpa using (insertDesc_perm r l).subset h
  · intro h
    exact (insertDesc_perm r l).symm.subset (by simpa using h)

theorem insertDesc_sorted {r : DbRow} {l : List DbRow}
    (h : l.Pairwise fun a b => b.created_at ≤ a.created_at) :
    (insertDesc r l).Pairwise fun a b => b.created_at ≤ a.created_at := by
  induction l with
  | nil => simp [insertDesc]
  | cons x xs ih =>
    rcases List.pairwise_cons.mp h with ⟨hx, hxs⟩
    by_cases hlt : x.created_at < r.created_at
    · rw [insertDesc, if_pos hlt]
      refine List.pairwise_cons.mpr ⟨?_, h⟩
      intro b hb
      rcases List.mem_cons.mp hb with hb1 | hb2
      · subst hb1
        exact Nat.le_of_lt hlt
      · exact Nat.le_trans (hx b hb2) (Nat.le_of_lt hlt)
    · rw [insertDesc, if_neg hlt]
      refine List.pairwise_cons.mpr ⟨?_, ih hxs⟩
      intro b hb
      rcases mem_insertDesc.mp hb with hb1 | hb2
      · subst hb1
        exact Nat.le_of_not_lt hlt
      · exact hx b hb2

theorem sortDesc_sorted (l : List DbRow) :
    (sortDesc l).Pairwise fun a b => b.created_at ≤ a.created_at := by
  induction l with
  | nil => simp [sortDesc]
  | cons r rs ih => exact insertDesc_sorted ih

theorem sortDesc_eq_self {l : List DbRow}
    (h : l.Pairwise fun a b => b.created_at < a.created_at) : sortDesc l = l := by
  induction l with
  | nil => rfl
  | cons r rs ih =>
    rcases List.pairwise_cons.mp h with ⟨hr, hrs⟩
    rw [sortDesc, ih hrs]
    cases rs with
    | nil => rfl
    | cons x xs => simp [insertDesc, hr x (by simp)]

/-! ### Query lemmas -/

theorem mem_messagesQuery {db : List DbRow} {cid : Nat} {before : Option Nat}
    {x : DbRow} (h : x ∈ messagesQuery db cid before) :
    x ∈ db ∧ x.conversation_id = cid ∧ x.is_deleted = false ∧
      ∀ t, before = some t → x.created_at < t := by
  have hx := (sortDesc_perm _).subset ((List.take_sublist _ _).mem h)
  rcases List.mem_filter.mp hx with ⟨hdb, hp⟩
  simp only [queryPred, visibleIn, Bool.and_eq_true, beq_iff_eq] at hp
  refine ⟨hdb, hp.1.1, by simpa using hp.1.2, ?_⟩
  intro t ht
  subst ht
  simpa using hp.2

theorem messagesQuery_pairwise {R : DbRow → DbRow → Prop}
    (hsymm : ∀ {a b : DbRow}, R a b → R b a) {db : List DbRow}
    (h : db.Pairwise R) (cid : Nat) (before : Option Nat) :
    (messagesQuery db cid before).Pairwise R := by
  have h1 : (db.filter (queryPred cid before)).Pairwise R := h.filter _
  have h2 := ((sortDesc_perm _).pairwise_iff fun hab => hsymm hab).mpr h1
  exact h2.sublist (List.take_sublist _ _)

theorem messagesQuery_sorted {db : List DbRow}
    (hdb : ordAsc DbRow.created_at db) (cid : Nat) (before : Option Nat) :
    (messagesQuery db cid before).Pairwise fun a b =>
      b.created_at < a.created_at := by
  have hne : (messagesQuery db cid before).Pairwise fun a b =>
      a.created_at ≠ b.created_at :=
    messagesQuery_pairwise (fun hab => fun he => hab he.symm)
      (hdb.imp fun hl => Nat.ne_of_lt hl) cid before
  have hge : (messagesQuery db cid before).Pairwise fun a b =>
      b.created_at ≤ a.created_at :=
    (sortDesc_sorted _).sublist (List.take_sublist _ _)
  exact (hge.and hne).imp fun hab =>
    Nat.lt_of_le_of_ne hab.1 fun he => hab.2 he.symm

theorem messagesQuery_length (db : List DbRow) (cid : Nat)
    (before : Option Nat) :
    (messagesQuery db cid before).length =
      min 50 (db.filter (queryPred cid before)).length := by
  rw [messagesQuery, List.length_take, (sortDesc_perm _).length_eq]

/-! ### Transform lemmas -/

theorem toMessage_id (pm : Nat → Option ProfileRow) (r : DbRow) :
    (toMessage pm r).id = r.id := rfl

theorem toMessage_created_at (pm : Nat → Option ProfileRow) (r : DbRow) :
    (toMessage pm r).created_at = r.created_at := rfl

theorem length_transformMessages (pdb : List ProfileRow) (rows : List DbRow) :
    (transformMessages pdb rows).length = rows.length := by
  simp [transformMessages]

theorem mem_transformMessages {pdb : List ProfileRow} {rows : List DbRow}
    {m : Message} (hm : m ∈ transformMessages pdb rows) :
    ∃ r ∈ rows, m = toMessage (profilesMapGet (pageProfiles pdb rows)) r := by
  rcases List.mem_map.mp hm with ⟨r, hr, he⟩
  exact ⟨r, List.mem_reverse.mp hr, he.symm⟩

theorem transformMessages_ordAsc {pdb : List ProfileRow} {rows : List DbRow}
    (h : rows.Pairwise fun a b => b.created_at < a.created_at) :
    ordAsc Message.created_at (transformMessages pdb rows) := by
  unfold ordAsc transformMessages
  rw [List.pairwise_map, List.pairwise_reverse]
  exact h

theorem transformMessages_uniqKey {pdb : List ProfileRow} {rows : List DbRow}
    (h : uniqKey DbRow.id rows) :
    uniqKey Message.id (transformMessages pdb rows) := by
  unfold uniqKey transformMessages
  rw [List.pairwise_map, List.pairwise_reverse]
  exact h.imp fun hab => fun he => hab he.symm

/-- The facts a fetched-and-transformed page satisfies over a well-formed
table: ascending order, unique ids, backing rows of the conversation, and
the strict `before` bound. -/
theorem fetched_facts (db : List DbRow) (pdb : List ProfileRow) (cid : Nat)
    (before : Option Nat) (hOrd : ordAsc DbRow.created_at db)
    (hUniq : uniqKey DbRow.id db) :
    ordAsc Message.created_at (transformMessages pdb (messagesQuery db cid before)) ∧
    uniqKey Message.id (transformMessages pdb (messagesQuery db cid before)) ∧
    (∀ m ∈ transformMessages pdb (messagesQuery db cid before),
      ∃ r ∈ db, r.id = m.id ∧ r.created_at = m.created_at ∧ r.conversation_id = cid) ∧
    (∀ t, before = some t →
      ∀ m ∈ transformMessages pdb (messagesQuery db cid before), m.created_at < t) := by
  refine ⟨transformMessages_ordAsc (messagesQuery_sorted hOrd cid before),
    transformMessages_uniqKey
      (messagesQuery_pairwise (fun hab => fun he => hab he.symm) hUniq cid before),
    ?_, ?_⟩
  · intro m hm
    rcases mem_transformMessages hm with ⟨r, hr, he⟩
    rcases mem_messagesQuery hr with ⟨hdb, hc, _, _⟩
    exact ⟨r, hdb, by rw [he]; rfl, by rw [he]; rfl, hc⟩
  · intro t ht m hm
    rcases mem_transformMessages hm with ⟨r, hr, he⟩
    rcases mem_messagesQuery hr with ⟨_, _, _, hb⟩
    rw [he]
    exact hb t ht

/-! ### Invariant preservation -/

theorem fetchMessages_none (db : List DbRow) (pdb : List ProfileRow)
    (cid : Nat) (append : Bool) (st : ChatState) :
    fetchMessages db pdb cid none append st =
      { messages :=
          if append then
            transformMessages pdb (messagesQuery db cid none) ++ st.messages
          else transformMessages pdb (messagesQuery db cid none)
        hasMore := (messagesQuery db cid none).length == 50 } := by
  rcases st with ⟨msgs, hm⟩
  cases msgs <;> rfl

theorem head_le_of_ordAsc {m0 : Message} {rest : List Message}
    (h : ordAsc Message.created_at (m0 :: rest)) :
    ∀ m ∈ m0 :: rest, m0.created_at ≤ m.created_at := by
  intro m hm
  rcases List.mem_cons.mp hm with h1 | h2
  · subst h1
    exact Nat.le_refl _
  · exact Nat.le_of_lt ((List.pairwise_cons.mp h).1 m h2)

theorem evOK_send_fresh {s : SysState} {mid sender cid' : Nat}
    {content image : Option String} {pdb : List ProfileRow}
    (hok : evOK s (.sendMsg mid sender cid' content image pdb) = true) :
    ∀ r ∈ s.db, r.id ≠ mid := by
  intro r hr
  have hx := List.all_eq_true.mp hok r hr
  simpa using hx

theorem sysInv_initialFetch {cid : Nat} {s : SysState} (pdb : List ProfileRow)
    (h : sysInv cid s) : sysInv cid (stepSys cid s (.initialFetch pdb)) := by
  obtain ⟨hOrd, hUniq, hClock, _, _, _⟩ := h
  obtain ⟨hf1, hf2, hf3, _⟩ := fetched_facts s.db pdb cid none hOrd hUniq
  have hmsgs : (stepSys cid s (.initialFetch pdb)).chat.messages =
      transformMessages pdb (messagesQuery s.db cid none) := by
    simp [stepSys, fetchMessages_none]
  refine ⟨hOrd, hUniq, hClock, ?_, ?_, ?_⟩
  · intro m hm
    rw [hmsgs] at hm
    exact hf3 m hm
  · rw [show (stepSys cid s (.initialFetch pdb)).chat.messages =
      transformMessages pdb (messagesQuery s.db cid none) from hmsgs]
    exact hf1
  · rw [show (stepSys cid s (.initialFetch pdb)).chat.messages =
      transformMessages pdb (messagesQuery s.db cid none) from hmsgs]
    exact hf2

theorem sysInv_loadMore {cid : Nat} {s : SysState} (pdb : List ProfileRow)
    (h : sysInv cid s) : sysInv cid (stepSys cid s (.loadMore pdb)) := by
  obtain ⟨hOrd, hUniq, hClock, hBacked, hMOrd, hMUniq⟩ := h
  rcases s with ⟨db, clock, msgs, hasM⟩
  simp only at hOrd hUniq hClock hBacked hMOrd hMUniq
  cases msgs with
  | nil =>
    obtain ⟨hf1, hf2, hf3, _⟩ := fetched_facts db pdb cid none hOrd hUniq
    have hmsgs : (stepSys cid ⟨db, clock, [], hasM⟩ (.loadMore pdb)).chat.messages =
        transformMessages pdb (messagesQuery db cid none) := by
      simp [stepSys, fetchMessages_none]
    refine ⟨hOrd, hUniq, hClock, ?_, ?_, ?_⟩
    · intro m hm
      rw [hmsgs] at hm
      exact hf3 m hm
    · rw [show (stepSys cid ⟨db, clock, [], hasM⟩ (.loadMore pdb)).chat.messages =
        transformMessages pdb (messagesQuery db cid none) from hmsgs]
      exact hf1
    · rw [show (stepSys cid ⟨db, clock, [], hasM⟩ (.loadMore pdb)).chat.messages =
        transformMessages pdb (messagesQuery db cid none) from hmsgs]
      exact hf2
  | cons m0 rest =>
    obtain ⟨hf1, hf2, hf3, hf4⟩ :=
      fetched_facts db pdb cid (some m0.created_at) hOrd hUniq
    have hlt : ∀ m ∈ transformMessages pdb
        (messagesQuery db cid (some m0.created_at)), m.created_at < m0.created_at :=
      hf4 m0.created_at rfl
    have hle := head_le_of_ordAsc hMOrd
    have hmsgs : (stepSys cid ⟨db, clock, m0 :: rest, hasM⟩ (.loadMore pdb)).chat.messages =
        transformMessages pdb (messagesQuery db cid (some m0.created_at)) ++
          (m0 :: rest) := rfl
    refine ⟨hOrd, hUniq, hClock, ?_, ?_, ?_⟩
    · intro m hm
      rw [hmsgs] at hm
      rcases List.mem_append.mp hm with h1 | h2
      · exact hf3 m h1
      · exact hBacked m h2
    · rw [show (stepSys cid ⟨db, clock, m0 :: rest, hasM⟩ (.loadMore pdb)).chat.messages =
        transformMessages pdb (messagesQuery db cid (some m0.created_at)) ++
          (m0 :: rest) from hmsgs]
      exact List.pairwise_append.mpr ⟨hf1, hMOrd, fun a ha b hb =>
        Nat.lt_of_lt_of_le (hlt a ha) (hle b hb)⟩
    · rw [show (stepSys cid ⟨db, clock, m0 :: rest, hasM⟩ (.loadMore pdb)).chat.messages =
        transformMessages pdb (messagesQuery db cid (some m0.created_at)) ++
          (m0 :: rest) from hmsgs]
      refine List.pairwise_append.mpr ⟨hf2, hMUniq, ?_⟩
      intro a ha b hb hab
      rcases hf3 a ha with ⟨ra, hra, hraid, hract, _⟩
      rcases hBacked b hb with ⟨rb, hrb, hrbid, hrbct, _⟩
      have hre : ra = rb :=
        pairwise_key_inj DbRow.id hUniq ra hra rb hrb (by rw [hraid, hrbid, hab])
      have h1 : a.created_at < m0.created_at := hlt a ha
      have h2 : m0.created_at ≤ b.created_at := hle b hb
      have h3 : a.created_at = b.created_at := by
        rw [← hract, ← hrbct, hre]
      exact absurd h3 (Nat.ne_of_lt (Nat.lt_of_lt_of_le h1 h2))

theorem sysInv_sendMsg {cid : Nat} {s : SysState} {mid sender cid' : Nat}
    {content image : Option String} {pdb : List ProfileRow}
    (h : sysInv cid s)
    (hok : evOK s (.sendMsg mid sender cid' content image pdb) = true) :
    sysInv cid (stepSys cid s (.sendMsg mid sender cid' content image pdb)) := by
  obtain ⟨hOrd, hUniq, hClock, hBacked, hMOrd, hMUniq⟩ := h
  have hfresh := evOK_send_fresh hok
  rcases s with ⟨db, clock, msgs, hasM⟩
  simp only at hOrd hUniq hClock hBacked hMOrd hMUniq hfresh
  have hdbOrd : ordAsc DbRow.created_at
      (db ++ [rowOfSend clock mid sender cid' content image]) := by
    refine List.pairwise_append.mpr ⟨hOrd, by simp [ordAsc], ?_⟩
    intro a ha b hb
    rw [List.mem_singleton.mp hb]
    exact hClock a ha
  have hdbUniq : uniqKey DbRow.id
      (db ++ [rowOfSend clock mid sender cid' content image]) := by
    refine List.pairwise_append.mpr ⟨hUniq, by simp [uniqKey], ?_⟩
    intro a ha b hb
    rw [List.mem_singleton.mp hb]
    exact hfresh a ha
  have hdbClock : ∀ r ∈ db ++ [rowOfSend clock mid sender cid' content image],
      r.created_at < clock + 1 := by
    intro r hr
    rcases List.mem_append.mp hr with h1 | h2
    · exact Nat.lt_succ_of_lt (hClock r h1)
    · rw [List.mem_singleton.mp h2]
      exact Nat.lt_succ_self clock
  by_cases hcid : (cid' == cid) = true
  · have hcideq : cid' = cid := by simpa using hcid
    by_cases hAny : (msgs.any fun m =>
        m.id == (toMessage (singleProfileQuery pdb)
          (rowOfSend clock mid sender cid' content image)).id) = true
    · have hmsgs : (stepSys cid ⟨db, clock, msgs, hasM⟩
          (.sendMsg mid sender cid' content image pdb)).chat.messages = msgs := by
        simp [stepSys, hcid, handleInsert, hAny]
      refine ⟨hdbOrd, hdbUniq, hdbClock, ?_, ?_, ?_⟩
      · intro m hm
        rw [hmsgs] at hm
        rcases hBacked m hm with ⟨r, hr, hprops⟩
        exact ⟨r, List.mem_append_left _ hr, hprops⟩
      · rw [show (stepSys cid ⟨db, clock, msgs, hasM⟩
          (.sendMsg mid sender cid' content image pdb)).chat.messages = msgs from hmsgs]
        exact hMOrd
      · rw [show (stepSys cid ⟨db, clock, msgs, hasM⟩
          (.sendMsg mid sender cid' content image pdb)).chat.messages = msgs from hmsgs]
        exact hMUniq
    · have hmsgs : (stepSys cid ⟨db, clock, msgs, hasM⟩
          (.sendMsg mid sender cid' content image pdb)).chat.messages =
          msgs ++ [toMessage (singleProfileQuery pdb)
            (rowOfSend clock mid sender cid' content image)] := by
        simp [stepSys, hcid, handleInsert, hAny]
      have hmlt : ∀ m ∈ msgs, m.created_at < clock := by
        intro m hm
        rcases hBacked m hm with ⟨r, hr, _, hct, _⟩
        rw [← hct]
        exact hClock r hr
      have hmne : ∀ m ∈ msgs, m.id ≠ mid := by
        intro m hm
        rcases hBacked m hm with ⟨r, hr, hid, _, _⟩
        rw [← hid]
        exact hfresh r hr
      refine ⟨hdbOrd, hdbUniq, hdbClock, ?_, ?_, ?_⟩
      · intro m hm
        rw [hmsgs] at hm
        rcases List.mem_append.mp hm with h1 | h2
        · rcases hBacked m h1 with ⟨r, hr, hprops⟩
          exact ⟨r, List.mem_append_left _ hr, hprops⟩
        · rw [List.mem_singleton.mp h2]
          exact ⟨rowOfSend clock mid sender cid' content image,
            List.mem_append_right _ (List.mem_singleton.mpr rfl), rfl, rfl, hcideq⟩
      · rw [show (stepSys cid ⟨db, clock, msgs, hasM⟩
          (.sendMsg mid sender cid' content image pdb)).chat.messages =
          msgs ++ [toMessage (singleProfileQuery pdb)
            (rowOfSend clock mid sender cid' content image)] from hmsgs]
        refine List.pairwise_append.mpr ⟨hMOrd, by simp [ordAsc], ?_⟩
        intro a ha b hb
        rw [List.mem_singleton.mp hb]
        exact hmlt a ha
      · rw [show (stepSys cid ⟨db, clock, msgs, hasM⟩
          (.sendMsg mid sender cid' content image pdb)).chat.messages =
          msgs ++ [toMessage (singleProfileQuery pdb)
            (rowOfSend clock mid sender cid' content image)] from hmsgs]
        refine List.pairwise_append.mpr ⟨hMUniq, by simp [uniqKey], ?_⟩
        intro a ha b hb
        rw [List.mem_singleton.mp hb]
        exact hmne a ha
  · have hmsgs : (stepSys cid ⟨db, clock, msgs, hasM⟩
        (.sendMsg mid sender cid' content image pdb)).chat.messages = msgs := by
      simp [stepSys, hcid]
    refine ⟨hdbOrd, hdbUniq, hdbClock, ?_, ?_, ?_⟩
    · intro m hm
      rw [hmsgs] at hm
      rcases hBacked m hm with ⟨r, hr, hprops⟩
      exact ⟨r, List.mem_append_left _ hr, hprops⟩
    · rw [show (stepSys cid ⟨db, clock, msgs, hasM⟩
        (.sendMsg mid sender cid' content image pdb)).chat.messages = msgs from hmsgs]
      exact hMOrd
    · rw [show (stepSys cid ⟨db, clock, msgs, hasM⟩
        (.sendMsg mid sender cid' content image pdb)).chat.messages = msgs from hmsgs]
      exact hMUniq

theorem sysInv_deleteMsg {cid : Nat} {s : SysState} {i : Nat}
    (h : sysInv cid s) : sysInv cid (stepSys cid s (.deleteMsg i)) := by
  obtain ⟨hOrd, hUniq, hClock, hBacked, hMOrd, hMUniq⟩ := h
  rcases s with ⟨db, clock, msgs, hasM⟩
  simp only at hOrd hUniq hClock hBacked hMOrd hMUniq
  have hdbOrd : ordAsc DbRow.created_at (db.filter fun r => !(r.id == i)) :=
    hOrd.filter _
  have hdbUniq : uniqKey DbRow.id (db.filter fun r => !(r.id == i)) :=
    hUniq.filter _
  have hdbClock : ∀ r ∈ db.filter (fun r => !(r.id == i)), r.created_at < clock := by
    intro r hr
    exact hClock r (List.mem_filter.mp hr).1
  by_cases hAny : (db.any fun r => r.id == i && r.conversation_id == cid) = true
  · have hmsgs : (stepSys cid ⟨db, clock, msgs, hasM⟩ (.deleteMsg i)).chat.messages =
        msgs.filter (fun m => !(m.id == i)) := by
      simp [stepSys, hAny, handleDelete]
    refine ⟨hdbOrd, hdbUniq, hdbClock, ?_, ?_, ?_⟩
    · intro m hm
      rw [hmsgs] at hm
      rcases List.mem_filter.mp hm with ⟨hmem, hne⟩
      rcases hBacked m hmem with ⟨r, hr, hid, hct, hconv⟩
      refine ⟨r, List.mem_filter.mpr ⟨hr, ?_⟩, hid, hct, hconv⟩
      rw [hid]
      exact hne
    · rw [show (stepSys cid ⟨db, clock, msgs, hasM⟩ (.deleteMsg i)).chat.messages =
        msgs.filter (fun m => !(m.id == i)) from hmsgs]
      exact hMOrd.filter _
    · rw [show (stepSys cid ⟨db, clock, msgs, hasM⟩ (.deleteMsg i)).chat.messages =
        msgs.filter (fun m => !(m.id == i)) from hmsgs]
      exact hMUniq.filter _
  · have hmsgs : (stepSys cid ⟨db, clock, msgs, hasM⟩ (.deleteMsg i)).chat.messages =
        msgs := by
      simp [stepSys, hAny]
    refine ⟨hdbOrd, hdbUniq, hdbClock, ?_, ?_, ?_⟩
    · intro m hm
      rw [hmsgs] at hm
      rcases hBacked m hm with ⟨r, hr, hid, hct, hconv⟩
      refine ⟨r, List.mem_filter.mpr ⟨hr, ?_⟩, hid, hct, hconv⟩
      by_contra hri
      simp only [Bool.not_eq_true', Bool.not_eq_false] at hri
      exact hAny (List.any_eq_true.mpr ⟨r, hr,
        by rw [Bool.and_eq_true]; exact ⟨hri, by simpa using hconv⟩⟩)
    · rw [show (stepSys cid ⟨db, clock, msgs, hasM⟩ (.deleteMsg i)).chat.messages =
        msgs from hmsgs]
      exact hMOrd
    · rw [show (stepSys cid ⟨db, clock, msgs, hasM⟩ (.deleteMsg i)).chat.messages =
        msgs from hmsgs]
      exact hMUniq

/-- Every reachable system state satisfies the invariant. -/
theorem reach_sysInv {cid : Nat} {s : SysState} (h : Reach cid s) :
    sysInv cid s := by
  induction h with
  | init =>
    exact ⟨by simp [initSys, ordAsc], by simp [initSys, uniqKey],
      by simp [initSys], by intro m hm; simp [initSys] at hm,
      by simp [initSys, ordAsc], by simp [initSys, uniqKey]⟩
  | step hr hok ih =>
    rename_i s' e
    cases e with
    | sendMsg mid sender cid' content image pdb => exact sysInv_sendMsg ih hok
    | deleteMsg i => exact sysInv_deleteMsg ih
    | initialFetch pdb => exact sysInv_initialFetch pdb ih
    | loadMore pdb => exact sysInv_loadMore pdb ih

/-! ### Characterization of the initial page -/

theorem sortDesc_strict {l : List DbRow} (h : ordAsc DbRow.created_at l) :
    (sortDesc l).Pairwise fun a b => b.created_at < a.created_at := by
  have hne : (sortDesc l).Pairwise fun a b => a.created_at ≠ b.created_at :=
    ((sortDesc_perm l).pairwise_iff fun hab => fun he => hab he.symm).mpr
      (h.imp fun hl => Nat.ne_of_lt hl)
  exact ((sortDesc_sorted l).and hne).imp fun hab =>
    Nat.lt_of_le_of_ne hab.1 fun he => hab.2 he.symm

theorem sortDesc_of_sortedAsc {l : List DbRow} (h : ordAsc DbRow.created_at l) :
    sortDesc l = l.reverse := by
  haveI : IsAntisymm DbRow fun a b => b.created_at < a.created_at :=
    ⟨fun a b h1 h2 => absurd h1 (Nat.lt_asymm h2)⟩
  refine List.eq_of_perm_of_sorted
    ((sortDesc_perm l).trans (List.reverse_perm l).symm) (sortDesc_strict h) ?_
  show List.Pairwise _ l.reverse
  rw [List.pairwise_reverse]
  exact h

theorem queryPred_none (cid : Nat) : queryPred cid none = visibleIn cid := by
  funext r
  simp [queryPred]

theorem mem_jsSetDedup_aux (l : List Nat) (x : Nat) :
    ∀ acc : List Nat,
      (x ∈ l.foldl (fun acc y => if acc.contains y then acc else acc ++ [y]) acc ↔
        x ∈ acc ∨ x ∈ l) := by
  induction l with
  | nil => simp
  | cons y ys ih =>
    intro acc
    rw [List.foldl_cons]
    by_cases hy : acc.contains y = true
    · have hymem : y ∈ acc := by simpa using hy
      rw [if_pos hy, ih acc]
      constructor
      · rintro (h1 | h2)
        · exact Or.inl h1
        · exact Or.inr (List.mem_cons_of_mem y h2)
      · rintro (h1 | h2)
        · exact Or.inl h1
        · rcases List.mem_cons.mp h2 with h3 | h4
          · exact Or.inl (h3 ▸ hymem)
          · exact Or.inr h4
    · rw [if_neg hy, ih (acc ++ [y])]
      constructor
      · rintro (h1 | h2)
        · rcases List.mem_append.mp h1 with h3 | h4
          · exact Or.inl h3
          · exact Or.inr (List.mem_cons.mpr (Or.inl (List.mem_singleton.mp h4)))
        · exact Or.inr (List.mem_cons_of_mem y h2)
      · rintro (h1 | h2)
        · exact Or.inl (List.mem_append_left _ h1)
        · rcases List.mem_cons.mp h2 with h3 | h4
          · exact Or.inl (List.mem_append_right _ (List.mem_singleton.mpr h3))
          · exact Or.inr h4

theorem mem_jsSetDedup {x : Nat} {l : List Nat} : x ∈ jsSetDedup l ↔ x ∈ l := by
  rw [jsSetDedup, mem_jsSetDedup_aux l x []]
  simp

theorem profilesMapGet_filter_aux (pdb : List ProfileRow) (sid : Nat)
    (q : ProfileRow → Bool) (hq : ∀ p : ProfileRow, p.id = sid → q p = true) :
    ∀ acc : Option ProfileRow,
      (pdb.filter q).foldl (fun acc p => if p.id == sid then some p else acc) acc =
        pdb.foldl (fun acc p => if p.id == sid then some p else acc) acc := by
  induction pdb with
  | nil => intro acc; rfl
  | cons p ps ih =>
    intro acc
    by_cases hqp : q p = true
    · rw [List.filter_cons_of_pos hqp, List.foldl_cons, List.foldl_cons]
      exact ih _
    · rw [List.filter_cons_of_neg (by simpa using hqp), List.foldl_cons]
      have hne : (p.id == sid) = false := by
        by_contra hc
        simp only [Bool.not_eq_false, beq_iff_eq] at hc
        exact hqp (hq p hc)
      rw [if_neg (by simp [hne])]
      exact ih acc

/-- Restricting the batched `.in` lookup to a set of ids containing `sid`
resolves `sid` exactly as the unrestricted profile table would. -/
theorem profilesMapGet_filter {pdb : List ProfileRow} {ids : List Nat} {sid : Nat}
    (hsid : sid ∈ ids) :
    profilesMapGet (profilesQuery pdb ids) sid = profilesMapGet pdb sid := by
  unfold profilesMapGet profilesQuery
  exact profilesMapGet_filter_aux pdb sid _
    (fun p hp => by simpa [hp] using hsid) none

/-- The raw columns of a displayed message. -/
def msgKey (m : Message) : Nat × Option String × Option String × Nat × Nat :=
  (m.id, m.content, m.image_url, m.created_at, m.sender_id)

/-- The raw columns of a stored row (as selected by the component). -/
def rowKey (r : DbRow) : Nat × Option String × Option String × Nat × Nat :=
  (r.id, r.content, r.image_url, r.created_at, r.sender_id)

theorem msgKey_toMessage (pm : Nat → Option ProfileRow) (r : DbRow) :
    msgKey (toMessage pm r) = rowKey r := rfl

/-- Every message of a transformed page resolves its sender through the
whole profile table: the `.in` restriction to the page's distinct sender
ids loses nothing. -/
theorem transformMessages_profile (pdb : List ProfileRow) (rows : List DbRow) :
    ∀ m ∈ transformMessages pdb rows,
      m.sender_profile = senderProfileOf (profilesMapGet pdb m.sender_id) := by
  intro m hm
  rcases mem_transformMessages hm with ⟨r, hr, he⟩
  have hsidmem : r.sender_id ∈ jsSetDedup (rows.map (·.sender_id)) :=
    mem_jsSetDedup.mpr (List.mem_map.mpr ⟨r, hr, rfl⟩)
  have hlen : 0 < (jsSetDedup (rows.map (·.sender_id))).length :=
    List.length_pos.mpr (List.ne_nil_of_mem hsidmem)
  have hpage : pageProfiles pdb rows =
      profilesQuery pdb (jsSetDedup (rows.map (·.sender_id))) := by
    unfold pageProfiles
    rw [if_pos hlen]
  rw [he]
  show senderProfileOf (profilesMapGet (pageProfiles pdb rows) r.sender_id) =
    senderProfileOf (profilesMapGet pdb (toMessage _ r).sender_id)
  rw [hpage, profilesMapGet_filter hsidmem]
  rfl

/-! ### Demo trace used by concrete witnesses -/

/-- `n` consecutive sends to conversation 1 (fresh ids `0..n-1`). -/
def demoSys (n : Nat) : SysState :=
  (List.range n).foldl (fun s i => stepSys 1 s (.sendMsg i 0 1 none none [])) initSys

theorem demoSys_succ (k : Nat) :
    demoSys (k + 1) = stepSys 1 (demoSys k) (.sendMsg k 0 1 none none []) := by
  unfold demoSys
  rw [List.range_succ, List.foldl_append, List.foldl_cons, List.foldl_nil]

theorem demoSys_db_clock (n : Nat) :
    (demoSys n).db = (List.range n).map (fun i => rowOfSend i i 0 1 none none) ∧
      (demoSys n).clock = n := by
  induction n with
  | zero => exact ⟨rfl, rfl⟩
  | succ k ih =>
    rw [demoSys_succ]
    constructor
    · show (demoSys k).db ++ [rowOfSend (demoSys k).clock k 0 1 none none] = _
      rw [ih.1, ih.2, List.range_succ, List.map_append]
      rfl
    · show (demoSys k).clock + 1 = k + 1
      rw [ih.2]

theorem demoSys_reach (n : Nat) : Reach 1 (demoSys n) := by
  induction n with
  | zero => exact Reach.init
  | succ k ih =>
    rw [demoSys_succ]
    refine Reach.step ih ?_
    show (demoSys k).db.all (fun r => !(r.id == k)) = true
    rw [(demoSys_db_clock k).1, List.all_eq_true]
    intro r hr
    rcases List.mem_map.mp hr with ⟨i, hi, he⟩
    rw [← he]
    have hik : i < k := List.mem_range.mp hi
    show (!(i == k)) = true
    simp only [Bool.not_eq_true', beq_eq_false_iff_ne]
    omega

/-- The demo window after its initial load of the 62-message history. -/
def demoReady : SysState := stepSys 1 (demoSys 62) (.initialFetch [])

/-! ### Claim theorems -/

/-- C1: along every sequence of well-formed insertion/deletion
notifications interleaved with initial and pagination fetches for the
same conversation, the visible message sequence contains each message
identifier at most once and is ordered by creation timestamp (strictly)
ascending; and an insertion notification whose identifier already exists
in the sequence leaves it unchanged. -/
theorem visible_sequence_unique_ordered_and_insert_dedupe :
    (∀ (cid : Nat) (s : SysState), Reach cid s →
      (s.chat.messages.map Message.id).Nodup ∧
        (s.chat.messages.map Message.created_at).Pairwise (· < ·)) ∧
    (∀ (pdb : List ProfileRow) (payload : DbRow) (prev : List Message),
      (prev.any fun m => m.id == payload.id) = true →
      handleInsert pdb payload prev = prev) := by
  constructor
  · intro cid s h
    obtain ⟨_, _, _, _, hOrd, hUniq⟩ := reach_sysInv h
    exact ⟨List.pairwise_map.mpr hUniq, List.pairwise_map.mpr hOrd⟩
  · intro pdb payload prev hAny
    unfold handleInsert
    rw [if_pos]
    show (prev.any fun m => m.id == (toMessage (singleProfileQuery pdb) payload).id) = true
    exact hAny

/-- Witness for C1: a concrete two-send trace keeps the sequence
deduplicated and ordered, and a duplicate insertion notification is a
no-op on a concrete sequence. -/
theorem visible_sequence_unique_ordered_and_insert_dedupe_witness :
    (((demoSys 2).chat.messages.map Message.id).Nodup ∧
      ((demoSys 2).chat.messages.map Message.created_at).Pairwise (· < ·)) ∧
    handleInsert [] (rowOfSend 0 0 7 1 (some "hi") none)
        [toMessage (fun _ => none) (rowOfSend 0 0 7 1 (some "hi") none)] =
      [toMessage (fun _ => none) (rowOfSend 0 0 7 1 (some "hi") none)] := by
  constructor
  · exact visible_sequence_unique_ordered_and_insert_dedupe.1 1 (demoSys 2)
      (demoSys_reach 2)
  · exact visible_sequence_unique_ordered_and_insert_dedupe.2 []
      (rowOfSend 0 0 7 1 (some "hi") none)
      [toMessage (fun _ => none) (rowOfSend 0 0 7 1 (some "hi") none)] (by decide)

/-- C2: over a table in insertion order, the initial load produces exactly
the most recent (at most) 50 visible rows of the conversation in
ascending order, resolves every message's sender profile exactly as the
whole profile table would (through the one batched lookup over the page's
distinct sender ids), and sets the "more available" flag iff the fetched
count reaches the page size, i.e. iff at least 50 visible rows exist. -/
theorem initial_load_spec (db : List DbRow) (pdb : List ProfileRow) (cid : Nat)
    (st : ChatState) (hOrd : ordAsc DbRow.created_at db) :
    (fetchMessages db pdb cid none false st).messages.map msgKey =
      ((db.filter (visibleIn cid)).drop
        ((db.filter (visibleIn cid)).length - 50)).map rowKey ∧
    (∀ m ∈ (fetchMessages db pdb cid none false st).messages,
      m.sender_profile = senderProfileOf (profilesMapGet pdb m.sender_id)) ∧
    ((fetchMessages db pdb cid none false st).hasMore = true ↔
      50 ≤ (db.filter (visibleIn cid)).length) := by
  have hv : db.filter (queryPred cid none) = db.filter (visibleIn cid) := by
    rw [queryPred_none]
  have hq : messagesQuery db cid none = ((db.filter (visibleIn cid)).reverse).take 50 := by
    unfold messagesQuery
    rw [hv, sortDesc_of_sortedAsc (hOrd.filter _)]
  have hrev : (messagesQuery db cid none).reverse =
      (db.filter (visibleIn cid)).drop ((db.filter (visibleIn cid)).length - 50) := by
    rw [hq, List.reverse_take, List.reverse_reverse, List.length_reverse]
  have hmsgs : (fetchMessages db pdb cid none false st).messages =
      transformMessages pdb (messagesQuery db cid none) := by
    simp [fetchMessages_none]
  refine ⟨?_, ?_, ?_⟩
  · rw [hmsgs]
    unfold transformMessages
    rw [List.map_map,
      show msgKey ∘ toMessage (profilesMapGet
        (pageProfiles pdb (messagesQuery db cid none))) = rowKey from
        funext fun r => msgKey_toMessage _ r, hrev]
  · rw [hmsgs]
    exact transformMessages_profile pdb _
  · have hh : (fetchMessages db pdb cid none false st).hasMore =
        ((messagesQuery db cid none).length == 50) := by
      simp [fetchMessages_none]
    rw [hh, messagesQuery_length, hv, beq_iff_eq]
    omega

/-- A three-row demo table: two visible rows and one soft-deleted row in
conversation 1. -/
def demoDb3 : List DbRow :=
  [rowOfSend 0 10 5 1 (some "a") none, rowOfSend 1 11 6 1 none (some "u"),
   { rowOfSend 2 12 5 1 (some "gone") none with is_deleted := true }]

/-- Witness for C2 at a concrete table and profile table. -/
theorem initial_load_spec_witness :
    (fetchMessages demoDb3 [⟨5, "alice", some "Alice", none⟩] 1 none false
        ⟨[], true⟩).messages.map msgKey =
      ((demoDb3.filter (visibleIn 1)).drop
        ((demoDb3.filter (visibleIn 1)).length - 50)).map rowKey ∧
    (∀ m ∈ (fetchMessages demoDb3 [⟨5, "alice", some "Alice", none⟩] 1 none false
        ⟨[], true⟩).messages,
      m.sender_profile = senderProfileOf
        (profilesMapGet [⟨5, "alice", some "Alice", none⟩] m.sender_id)) ∧
    ((fetchMessages demoDb3 [⟨5, "alice", some "Alice", none⟩] 1 none false
        ⟨[], true⟩).hasMore = true ↔
      50 ≤ (demoDb3.filter (visibleIn 1)).length) :=
  initial_load_spec demoDb3 [⟨5, "alice", some "Alice", none⟩] 1 ⟨[], true⟩
    (by unfold ordAsc; decide)

/-- C3: from any reachable state, the Load More step fetches a page of at
most 50 messages, all strictly older than the oldest currently-held
message, prepends it to the sequence, preserves strict ascending order,
and the "more available" flag ends up `false` exactly when the returned
page is shorter than the page size. -/
theorem load_older_spec (cid : Nat) (s : SysState) (pdb : List ProfileRow)
    (h : Reach cid s) :
    (stepSys cid s (.loadMore pdb)).chat.messages =
      transformMessages pdb (messagesQuery s.db cid
        (s.chat.messages.head?.map (·.created_at))) ++ s.chat.messages ∧
    (∀ m0, s.chat.messages.head? = some m0 →
      ∀ m ∈ transformMessages pdb (messagesQuery s.db cid
        (s.chat.messages.head?.map (·.created_at))),
        m.created_at < m0.created_at) ∧
    (transformMessages pdb (messagesQuery s.db cid
      (s.chat.messages.head?.map (·.created_at)))).length ≤ 50 ∧
    ordAsc Message.created_at (stepSys cid s (.loadMore pdb)).chat.messages ∧
    ((stepSys cid s (.loadMore pdb)).chat.hasMore = false ↔
      (messagesQuery s.db cid
        (s.chat.messages.head?.map (·.created_at))).length < 50) := by
  obtain ⟨hOrd, hUniq, _, _, _, _⟩ := reach_sysInv h
  have hOrd' : ordAsc Message.created_at (stepSys cid s (.loadMore pdb)).chat.messages :=
    (reach_sysInv (Reach.step h (show evOK s (.loadMore pdb) = true from rfl))).2.2.2.2.1
  have hlen : (transformMessages pdb (messagesQuery s.db cid
      (s.chat.messages.head?.map (·.created_at)))).length ≤ 50 := by
    rw [length_transformMessages, messagesQuery_length]
    exact Nat.min_le_left _ _
  have hqlen : (messagesQuery s.db cid
      (s.chat.messages.head?.map (·.created_at))).length ≤ 50 := by
    rw [messagesQuery_length]
    exact Nat.min_le_left _ _
  rcases s with ⟨db, clock, msgs, hasM⟩
  simp only at hOrd hUniq hOrd' hlen hqlen
  cases msgs with
  | nil =>
    refine ⟨?_, ?_, hlen, hOrd', ?_⟩
    · show (fetchMessages db pdb cid none true ⟨[], hasM⟩).messages = _
      rw [fetchMessages_none]
      simp
    · intro m0 hm0
      cases hm0
    · show ((fetchMessages db pdb cid none true ⟨[], hasM⟩).hasMore = false) ↔ _
      rw [fetchMessages_none]
      show (((messagesQuery db cid none).length == 50) = false) ↔ _
      rw [beq_eq_false_iff_ne]
      revert hqlen
      simp only [List.head?_nil, Option.map_none']
      omega
  | cons m0 rest =>
    obtain ⟨_, _, _, hf4⟩ := fetched_facts db pdb cid (some m0.created_at) hOrd hUniq
    refine ⟨rfl, ?_, hlen, hOrd', ?_⟩
    · intro m0' hm0' m hm
      have hm0e : m0 = m0' := by
        simpa using hm0'
      subst hm0e
      exact hf4 m0.created_at rfl m (by simpa using hm)
    · show (((messagesQuery db cid (some m0.created_at)).length == 50) = false) ↔ _
      rw [beq_eq_false_iff_ne]
      revert hqlen
      simp only [List.head?_cons, Option.map_some']
      omega

/-- Witness for C3: the spec's worked example — a 62-message history
loads a full page of 50 (flag stays `true`), then one pagination fetch
returns the remaining 12 and the flag becomes `false`, with all 62 shown. -/
theorem load_older_spec_witness :
    demoReady.chat.hasMore = true ∧
    demoReady.chat.messages.length = 50 ∧
    (stepSys 1 demoReady (.loadMore [])).chat.hasMore = false ∧
    (stepSys 1 demoReady (.loadMore [])).chat.messages.length = 62 := by
  refine ⟨by decide, by decide, ?_, by decide⟩
  exact (load_older_spec 1 demoReady []
    (Reach.step (demoSys_reach 62) rfl)).2.2.2.2.mpr (by decide)

/-- C5: a send with empty (or whitespace-only) text and no image is
rejected by the guard before any network call: no upload, no insert, no
toast, and the component state is unchanged. -/
theorem empty_send_rejected (conversationId currentUser : Option Nat)
    (uploadResult : Option String) (st : SendState)
    (htext : jsTrim st.newMessage = "") (himg : st.selectedImage = none) :
    handleSendMessage conversationId currentUser uploadResult st =
      { state := st, uploadCalls := 0, insertCalls := [], toasts := [] } := by
  cases conversationId with
  | none => rfl
  | some cid =>
    cases currentUser with
    | none => rfl
    | some uid =>
      simp [handleSendMessage, htext, himg]

/-- Witness for C5: whitespace-only text, no image. -/
theorem empty_send_rejected_witness :
    handleSendMessage (some 1) (some 2) none ⟨[], "   ", none⟩ =
      { state := ⟨[], "   ", none⟩, uploadCalls := 0, insertCalls := []
        toasts := [] } :=
  empty_send_rejected (some 1) (some 2) none ⟨[], "   ", none⟩ (by decide) rfl

/-- C6: the persisted row's type is derived from the payload shape, image
taking precedence: when an image is selected and its upload succeeds, the
single inserted row is image-typed (whatever the text); with no image and
non-empty text, the single inserted row is text-typed. -/
theorem message_type_from_payload_shape (cid uid : Nat) (st : SendState) :
    (∀ img url, st.selectedImage = some img →
      (handleSendMessage (some cid) (some uid) (some url) st).insertCalls =
        [⟨cid, uid,
          (if jsTrim st.newMessage = "" then none else some (jsTrim st.newMessage)),
          some url, .image⟩]) ∧
    (st.selectedImage = none → jsTrim st.newMessage ≠ "" →
      (handleSendMessage (some cid) (some uid) none st).insertCalls =
        [⟨cid, uid, some (jsTrim st.newMessage), none, .text⟩]) := by
  constructor
  · intro img url himg
    simp [handleSendMessage, himg]
  · intro himg htext
    simp [handleSendMessage, himg, htext]

/-- Witness for C6: an image-with-caption send persists an image-typed
row; a text-only send persists a text-typed row. -/
theorem message_type_from_payload_shape_witness :
    (handleSendMessage (some 1) (some 2) (some "u1")
        ⟨[], "pic!", some "f.png"⟩).insertCalls =
      [⟨1, 2, some "pic!", some "u1", .image⟩] ∧
    (handleSendMessage (some 1) (some 2) none
        ⟨[], " hello ", none⟩).insertCalls =
      [⟨1, 2, some "hello", none, .text⟩] := by
  constructor
  · have h := (message_type_from_payload_shape 1 2
      ⟨[], "pic!", some "f.png"⟩).1 "f.png" "u1" rfl
    rw [h]
    decide
  · have h := (message_type_from_payload_shape 1 2
      ⟨[], " hello ", none⟩).2 rfl (by decide)
    rw [h]
    decide

/-- C7: a send never writes the visible sequence — for every input the
messages list is unchanged by `handleSendMessage` — and the sent message
becomes visible exactly through the insertion-notification path: a fresh
echo is appended at the end by the INSERT handler's append rule. -/
theorem send_never_appends_locally :
    (∀ (conversationId currentUser : Option Nat) (uploadResult : Option String)
       (st : SendState),
      (handleSendMessage conversationId currentUser uploadResult st).state.messages =
        st.messages) ∧
    (∀ (pdb : List ProfileRow) (payload : DbRow) (prev : List Message),
      (prev.any fun m => m.id == payload.id) = false →
      handleInsert pdb payload prev =
        prev ++ [toMessage (singleProfileQuery pdb) payload]) := by
  constructor
  · intro c u up st
    cases c with
    | none => rfl
    | some cid =>
      cases u with
      | none => rfl
      | some uid =>
        by_cases hg : (decide (jsTrim st.newMessage = "") && st.selectedImage.isNone) = true
        · show ((if jsTrim st.newMessage = "" && st.selectedImage.isNone then _
            else _ : SendRun)).state.messages = st.messages
          rw [if_pos hg]
        · show ((if jsTrim st.newMessage = "" && st.selectedImage.isNone then _
            else _ : SendRun)).state.messages = st.messages
          rw [if_neg hg]
          cases st.selectedImage with
          | none => rfl
          | some img =>
            cases up with
            | none => rfl
            | some url => rfl
  · intro pdb payload prev hAny
    have hno : ¬ ((prev.any fun m =>
        m.id == (toMessage (singleProfileQuery pdb) payload).id) = true) := by
      show ¬ ((prev.any fun m => m.id == payload.id) = true)
      simp [hAny]
    unfold handleInsert
    rw [if_neg hno]

/-- Witness for C7: a concrete send leaves the sequence empty, and the
echo of a fresh insertion appends exactly one message. -/
theorem send_never_appends_locally_witness :
    (handleSendMessage (some 1) (some 2) none ⟨[], "hey", none⟩).state.messages = [] ∧
    handleInsert [] (rowOfSend 3 9 7 1 (some "hey") none) [] =
      [toMessage (singleProfileQuery []) (rowOfSend 3 9 7 1 (some "hey") none)] := by
  constructor
  · exact send_never_appends_locally.1 (some 1) (some 2) none ⟨[], "hey", none⟩
  · exact send_never_appends_locally.2 [] (rowOfSend 3 9 7 1 (some "hey") none) [] rfl

/-! ### Subscription lifecycle invariant -/

/-- The lifecycle consistency relation: `channelRef` points at exactly
the registered channel, or nothing is registered. -/
def subInv (s : SubState) : Prop :=
  (∀ c, s.channelRef = some c → s.liveChannels = [c]) ∧
    (s.channelRef = none → s.liveChannels = [])

theorem cleanupRef_of_none {s : SubState} (h : s.channelRef = none) :
    cleanupRef s = s := by
  unfold cleanupRef
  rw [h]

theorem cleanupRef_clears {s : SubState} (h : subInv s) :
    (cleanupRef s).channelRef = none ∧ (cleanupRef s).liveChannels = [] := by
  obtain ⟨h1, h2⟩ := h
  cases hc : s.channelRef with
  | none =>
    rw [cleanupRef_of_none hc]
    exact ⟨hc, h2 hc⟩
  | some c =>
    have hl := h1 c hc
    unfold cleanupRef
    rw [hc]
    refine ⟨rfl, ?_⟩
    show s.liveChannels.filter (fun x => !(x == c)) = []
    rw [hl]
    simp

theorem subscribeToMessages_true (s : SubState) :
    subscribeToMessages true s =
      { liveChannels := (cleanupRef s).liveChannels ++ [(cleanupRef s).nextId]
        channelRef := some (cleanupRef s).nextId
        nextId := (cleanupRef s).nextId + 1 } := rfl

theorem subInv_step {s : SubState} (e : SubEvent) (h : subInv s) :
    subInv (stepSub s e) := by
  have hclear := cleanupRef_clears h
  have hcInv : subInv (cleanupRef s) :=
    ⟨(fun c hc => absurd (hclear.1 ▸ hc) (fun he => Option.noConfusion he)),
      fun _ => hclear.2⟩
  cases e with
  | cleanup => exact hcInv
  | channelError => exact hcInv
  | effectRun b =>
    cases b with
    | false => exact hcInv
    | true =>
      show subInv (subscribeToMessages true (cleanupRef s))
      rw [subscribeToMessages_true, cleanupRef_of_none hclear.1, hclear.2]
      refine ⟨?_, ?_⟩
      · intro c hc
        simp only [Option.some.injEq] at hc
        rw [← hc]
        rfl
      · intro hn
        cases hn

/-- C8: in every reachable lifecycle state at most one live subscription
exists, and it is exactly the one the component's `channelRef` owns (so
the previous channel is removed before any new one is registered). -/
theorem at_most_one_live_subscription :
    ∀ s : SubState, ReachSub s →
      s.liveChannels.length ≤ 1 ∧
        (∀ c, s.channelRef = some c → s.liveChannels = [c]) ∧
        (s.channelRef = none → s.liveChannels = []) := by
  intro s h
  have hinv : subInv s := by
    induction h with
    | init => exact ⟨(fun c hc => Option.noConfusion hc), fun _ => rfl⟩
    | step e hr ih => exact subInv_step e ih
  refine ⟨?_, hinv.1, hinv.2⟩
  cases hc : s.channelRef with
  | some c =>
    rw [hinv.1 c hc]
    exact Nat.le_refl 1
  | none =>
    rw [hinv.2 hc]
    exact Nat.zero_le 1

/-- Witness for C8: two consecutive effect runs (a conversation switch)
followed by the unmount cleanup. -/
theorem at_most_one_live_subscription_witness :
    (stepSub (stepSub (stepSub initSub (.effectRun true)) (.effectRun true))
      .cleanup).liveChannels.length ≤ 1 ∧
    (stepSub (stepSub initSub (.effectRun true))
      (.effectRun true)).liveChannels.length ≤ 1 := by
  constructor
  · exact (at_most_one_live_subscription _
      (ReachSub.step .cleanup (ReachSub.step (.effectRun true)
        (ReachSub.step (.effectRun true) ReachSub.init)))).1
  · exact (at_most_one_live_subscription _
      (ReachSub.step (.effectRun true)
        (ReachSub.step (.effectRun true) ReachSub.init))).1

/-- C9 (amended): a failing initial or pagination fetch leaves the
visible sequence unchanged and issues exactly one messages query with no
retry in both `ChatWindow` variants; the legacy variant surfaces the
access-denied or generic failure notice, while the paginated variant
surfaces no notice at all. -/
theorem fetch_failure_reverts_silently :
    (∀ (db : List DbRow) (pdb : List ProfileRow) (cid : Nat)
       (beforeId : Option Nat) (append : Bool) (st : ChatState),
      fetchMessagesRun true db pdb cid beforeId append st =
        { state := st, toasts := [], messageQueries := 1 }) ∧
    (∀ (rls : Bool) (db : List DbRow) (pdb : List ProfileRow) (cid : Nat)
       (msgs : List Message),
      fetchMessagesLegacyRun (some rls) db pdb cid msgs =
        (msgs,
         [if rls then
            ⟨"Access Denied", "You don't have access to this conversation"⟩
          else ⟨"Error", "Failed to load messages. Please try again."⟩], 1)) :=
  ⟨fun _ _ _ _ _ _ => rfl, fun _ _ _ _ _ => rfl⟩

/-- C9 counterexample: in the paginated synchronizer a failing fetch
surfaces no user-visible notice — the toast list of a failed fetch is
empty (the claim asserts a failure notice is surfaced). -/
theorem fetch_failure_no_notice_counterexample :
    (fetchMessagesRun true demoDb3 [] 1 none false ⟨[], true⟩).toasts = [] ∧
    (fetchMessagesRun true demoDb3 [] 1 none false ⟨[], true⟩).state =
      ⟨[], true⟩ :=
  ⟨rfl, rfl⟩

/-- C10: profile-resolution failure never drops or delays a message: a
transformed page always has one display message per fetched row, an empty
profile result leaves every message with the "Unknown User" placeholder,
and a live insertion whose single-profile lookup fails is still appended,
carrying the placeholder. -/
theorem profile_failure_keeps_messages :
    (∀ (pdb : List ProfileRow) (rows : List DbRow),
      (transformMessages pdb rows).length = rows.length) ∧
    (∀ rows : List DbRow, ∀ m ∈ transformMessages [] rows,
      m.sender_profile = ⟨"Unknown User", "Unknown User", none⟩) ∧
    (∀ (payload : DbRow) (prev : List Message),
      (prev.any fun m => m.id == payload.id) = false →
      handleInsert [] payload prev = prev ++
        [{ id := payload.id, content := payload.content
           image_url := payload.image_url, created_at := payload.created_at
           sender_id := payload.sender_id
           sender_profile := ⟨"Unknown User", "Unknown User", none⟩ }]) := by
  have hpage : ∀ rows : List DbRow, pageProfiles [] rows = [] := by
    intro rows
    show (if (jsSetDedup (rows.map (·.sender_id))).length > 0
        then profilesQuery [] (jsSetDedup (rows.map (·.sender_id))) else []) = []
    by_cases hlen : (jsSetDedup (rows.map (·.sender_id))).length > 0
    · rw [if_pos hlen]
      rfl
    · rw [if_neg hlen]
  refine ⟨length_transformMessages, ?_, ?_⟩
  · intro rows m hm
    rcases mem_transformMessages hm with ⟨r, _, he⟩
    rw [he]
    show senderProfileOf (profilesMapGet (pageProfiles [] rows) r.sender_id) = _
    rw [hpage rows]
    rfl
  · intro payload prev hAny
    have hno : ¬ ((prev.any fun m =>
        m.id == (toMessage (singleProfileQuery []) payload).id) = true) := by
      show ¬ ((prev.any fun m => m.id == payload.id) = true)
      simp [hAny]
    unfold handleInsert
    rw [if_neg hno]
    rfl

/-- Witness for C10: with an empty profile table a one-row page still
yields one message, with the placeholder profile, and the live insertion
of a fresh message with a failed profile lookup is appended. -/
theorem profile_failure_keeps_messages_witness :
    (transformMessages [] [rowOfSend 4 1 9 1 (some "yo") none]).length = 1 ∧
    (toMessage (profilesMapGet (pageProfiles []
        [rowOfSend 4 1 9 1 (some "yo") none]))
      (rowOfSend 4 1 9 1 (some "yo") none)).sender_profile =
      ⟨"Unknown User", "Unknown User", none⟩ ∧
    handleInsert [] (rowOfSend 4 1 9 1 (some "yo") none) [] =
      [{ id := 1, content := some "yo", image_url := none, created_at := 4
         sender_id := 9
         sender_profile := ⟨"Unknown User", "Unknown User", none⟩ }] := by
  refine ⟨profile_failure_keeps_messages.1 [] _, ?_, ?_⟩
  · exact profile_failure_keeps_messages.2.1 [rowOfSend 4 1 9 1 (some "yo") none]
      (toMessage (profilesMapGet (pageProfiles []
        [rowOfSend 4 1 9 1 (some "yo") none])) (rowOfSend 4 1 9 1 (some "yo") none))
      (by decide)
  · exact profile_failure_keeps_messages.2.2 (rowOfSend 4 1 9 1 (some "yo") none) [] rfl

/-! ### Conversation switching exhibit -/

/-- One message in each of conversations 1 and 2. -/
def demoDbC4 : List DbRow :=
  [rowOfSend 0 100 5 1 (some "in conv 1") none,
   rowOfSend 1 101 6 2 (some "in conv 2") none]

/-- C4 exhibit: after "select conversation 1, select conversation 2, the
conversation-2 fetch completes, then the stale conversation-1 fetch
completes", conversation 2 is active but the visible sequence holds the
conversation-1 message: the stale fetch result was applied, not
discarded (the code performs no conversation-tag check after its
awaits). -/
theorem stale_fetch_applied_exhibit :
    (runWin demoDbC4 []
      [.selectConv 1, .selectConv 2, .fetchComplete 1, .fetchComplete 0]).active =
        some 2 ∧
    ((runWin demoDbC4 []
      [.selectConv 1, .selectConv 2, .fetchComplete 1, .fetchComplete 0]).messages.map
        Message.id) = [100] ∧
    (∀ r ∈ demoDbC4, r.id = 100 → r.conversation_id = 1) := by
  exact ⟨by decide, by decide, by decide⟩

end LiquidChat
